import Mathlib

/-!
Shallow embedding of the credit-report worker (src/index.js): text extraction
with OCR fallback, line-based chunking, per-chunk structured extraction with
tolerant response parsing, key-based deduplication, and the `/process` job
orchestrator. JS strings are modelled as `List Char`, record fields as Lean
`String`, and fallible asynchronous calls as `Except`-valued oracles.
-/

namespace CreditWorker

/-- A JS string, modelled as its character sequence. -/
abbrev JStr := List Char

deriving instance DecidableEq for Except

/-- Loop of `chunkText` (src/index.js lines 104-116): before appending a line,
if `currentChunk + line` would exceed the bound and the buffer is non-empty,
the buffer is flushed as a chunk; the line plus a newline is then appended to
the buffer; a final non-empty buffer is flushed after the loop. -/
def chunkGo (maxChunkSize : Nat) : List JStr → JStr → List JStr
  | [], cur => if cur = [] then [] else [cur]
  | line :: rest, cur =>
    if maxChunkSize < (cur ++ line).length ∧ cur ≠ [] then
      cur :: chunkGo maxChunkSize rest (line ++ ['\n'])
    else
      chunkGo maxChunkSize rest (cur ++ line ++ ['\n'])

/-- `chunkText` (src/index.js lines 99-119): split the text on newlines and
accumulate the lines into bounded chunks. -/
def chunkText (text : JStr) (maxChunkSize : Nat := 12000) : List JStr :=
  chunkGo maxChunkSize (text.splitOn '\n') []

/-- A candidate credit record as produced by the language service, with the
fields the pipeline reads (src/index.js lines 170 and 235-247). -/
structure CreditRecord where
  creditor : String
  type : String
  amount : Option Int
  openedDate : Option String
  reportedDate : Option String
  accountLast4 : Option String
  bureaus : List String
  isNegative : Bool
  notes : Option String
deriving DecidableEq, Repr

/-- The dedup key of src/index.js line 170:
the template literal result of creditor, type and `item.amount || 0`; a
missing (null) amount is JS-falsy and renders as 0. -/
def dedupKey (item : CreditRecord) : String :=
  item.creditor ++ "-" ++ item.type ++ "-" ++ toString (item.amount.getD 0)

/-- The dedup loop of src/index.js lines 169-175: keep the first record seen
for each key, in input order. -/
def dedupGo : List CreditRecord → List String → List CreditRecord
  | [], _ => []
  | item :: rest, seen =>
    if dedupKey item ∈ seen then dedupGo rest seen
    else item :: dedupGo rest (dedupKey item :: seen)

/-- Deduplication step of `processChunksWithOpenAI` (src/index.js 165-177). -/
def dedup (items : List CreditRecord) : List CreditRecord :=
  dedupGo items []

/-- A JSON value in a parsed service response, as far as the pipeline
distinguishes values: an array of records, or a non-array value together with
its JS truthiness. (JS arrays are always truthy, even when empty.) -/
inductive JVal where
  | arr (xs : List CreditRecord)
  | prim (truthy : Bool)
deriving DecidableEq, Repr

/-- JS truthiness of a `JVal`. -/
def JVal.jsTruthy : JVal → Bool
  | .arr _ => true
  | .prim t => t

/-- A parsed service response object: its `items` and `accounts` properties,
`none` when the key is absent (JS `undefined`, which is falsy). -/
structure LlmResponse where
  items : Option JVal
  accounts : Option JVal
deriving DecidableEq, Repr

/-- JS `a || b` on a possibly-absent value: `b` when `a` is absent or falsy. -/
def jsOr (a b : Option JVal) : Option JVal :=
  match a with
  | some v => if v.jsTruthy then some v else b
  | none => b

/-- Record-list selection of src/index.js lines 155-158:
`parsed.items || parsed.accounts || []` followed by the `Array.isArray`
guard; a non-array selection contributes no records. -/
def responseItems (items accounts : Option JVal) : List CreditRecord :=
  match jsOr items (jsOr accounts (some (JVal.arr []))) with
  | some (JVal.arr xs) => xs
  | _ => []

/-- Outcome of one chunk (src/index.js lines 142-162): the service call or
`JSON.parse` throws (`Except.error`, caught and logged, chunk skipped), or a
parsed response whose record list is appended. -/
def chunkItems : Except Unit LlmResponse → List CreditRecord
  | .error _ => []
  | .ok r => responseItems r.items r.accounts

/-- `processChunksWithOpenAI` (src/index.js lines 122-178): query the service
sequentially per chunk (the oracle `llm i` is the outcome for chunk index
`i`), collect accepted records, then deduplicate. -/
def processChunksWithOpenAI (llm : Nat → Except Unit LlmResponse)
    (chunks : List JStr) : List CreditRecord :=
  dedup ((List.range chunks.length).flatMap fun i => chunkItems (llm i))

/-- JS `String.prototype.trim`: strip leading and trailing whitespace. -/
def jsTrim (t : JStr) : JStr :=
  ((t.dropWhile Char.isWhitespace).reverse.dropWhile Char.isWhitespace).reverse

/-- Text contributed by one OCR page (src/index.js lines 56-67): a skipped
page (conversion or recognition threw, caught per page, or no buffer was
produced) contributes nothing; a recognized page contributes its text plus a
blank line. -/
def ocrPageText : Option JStr → JStr
  | none => []
  | some t => t ++ ['\n', '\n']

/-- `extractTextWithOCR` (src/index.js lines 35-76): if worker or rasterizer
setup throws, the error propagates (after terminating the worker); otherwise
pages 1 through 10 are processed sequentially with per-page failures skipped,
and the concatenation is returned — possibly the empty string when every page
was skipped. -/
def extractTextWithOCR (setup : Except Unit Unit) (page : Nat → Option JStr) :
    Except Unit JStr :=
  match setup with
  | .error e => .error e
  | .ok _ => .ok (((List.range 10).map fun i => ocrPageText (page (i + 1))).flatten)

/-- `extractPdfText` (src/index.js lines 79-96): native extraction first; the
native text is returned when it is truthy and longer than 100 characters
after trimming; otherwise the OCR outcome is returned. When native extraction
throws, OCR runs from the catch block. With a deterministic OCR outcome the
retry at line 94 (after an OCR failure at line 91 is caught) yields the same
outcome, so both short-text and thrown-native paths reduce to `ocr`. -/
def extractPdfText (native : Except Unit JStr) (ocr : Except Unit JStr) :
    Except Unit JStr :=
  match native with
  | .ok t => if t ≠ [] ∧ 100 < (jsTrim t).length then .ok t else ocr
  | .error _ => ocr

/-- Job status values this worker writes to `pdf_processing_jobs`. -/
inductive JobStatus where
  | processing
  | completed
  | failed
deriving DecidableEq, Repr

/-- A row upserted into `credit_items` (src/index.js lines 235-248). -/
structure SavedRow where
  profile_id : String
  creditor : String
  type : String
  amount_cents : Option Int
  opened_date : Option String
  reported_date : Option String
  account_last4 : Option String
  bureaus : List String
  is_negative : Bool
  notes : Option String
  status : String
  confidence : ℚ
deriving DecidableEq, Repr

/-- The row built for one credit item (src/index.js lines 235-248): the
item's fields plus the constant status `TO_SEND` and confidence `0.8`. -/
def toRow (profileId : String) (item : CreditRecord) : SavedRow :=
  { profile_id := profileId
    creditor := item.creditor
    type := item.type
    amount_cents := item.amount
    opened_date := item.openedDate
    reported_date := item.reportedDate
    account_last4 := item.accountLast4
    bureaus := item.bureaus
    is_negative := item.isNegative
    notes := item.notes
    status := "TO_SEND"
    confidence := 0.8 }

/-- The per-item persistence loop (src/index.js lines 231-252): rows are
upserted in order; `saveOk i` tells whether the upsert of the `i`-th item
succeeded (a failure is caught, logged, and does not abort the loop). The
result lists the rows that were actually persisted. -/
def savedRows (profileId : String) (items : List CreditRecord)
    (saveOk : Nat → Bool) : List SavedRow :=
  (items.enum.filter fun p => saveOk p.1).map fun p => toRow profileId p.2

/-- The environment of one `/process` invocation: outcomes of every external
call the handler can make. -/
structure Env where
  download : Except String Unit
  native : Except Unit JStr
  ocrSetup : Except Unit Unit
  ocrPage : Nat → Option JStr
  llm : Nat → Except Unit LlmResponse
  saveOk : Nat → Bool
  profileId : String

/-- The text-extraction outcome of an invocation (src/index.js line 214). -/
def extractOf (env : Env) : Except Unit JStr :=
  extractPdfText env.native (extractTextWithOCR env.ocrSetup env.ocrPage)

/-- Observable result of one handler invocation: the ordered job-status
writes, the deduplicated credit items, the persisted rows, and whether the
HTTP response reported success. -/
structure RunResult where
  log : List JobStatus
  items : List CreditRecord
  saved : List SavedRow
  httpOk : Bool
deriving DecidableEq, Repr

/-- The `POST /process` handler (src/index.js lines 181-301): mark the job
`processing`; download; extract text; throw unless the text is truthy and at
least 100 characters; chunk; extract structured records per chunk; persist
the rows item by item; mark the job `completed`. Any error thrown before the
completed-update lands in the catch block, which marks the job `failed`. -/
def runProcess (env : Env) : RunResult :=
  match env.download with
  | .error _ => ⟨[.processing, .failed], [], [], false⟩
  | .ok _ =>
    match extractOf env with
    | .error _ => ⟨[.processing, .failed], [], [], false⟩
    | .ok text =>
      if text = [] ∨ text.length < 100 then
        ⟨[.processing, .failed], [], [], false⟩
      else
        let creditItems := processChunksWithOpenAI env.llm (chunkText text)
        ⟨[.processing, .completed], creditItems,
          savedRows env.profileId creditItems env.saveOk, true⟩

/-- The two records of the spec's dedup example: identical creditor, type and
amount, differing only in the notes field. -/
def recAcme : CreditRecord :=
  ⟨"Acme", "COLLECTION", some 5000, none, none, none, [], true, none⟩

/-- A record identical to `recAcme` except for its notes field. -/
def recAcmeDup : CreditRecord :=
  { recAcme with notes := some "dup" }

/-- Environment in which every OCR page is skipped, so extraction succeeds
with the empty string. -/
def envOcrEmpty : Env where
  download := .ok ()
  native := .error ()
  ocrSetup := .ok ()
  ocrPage := fun _ => none
  llm := fun _ => .error ()
  saveOk := fun _ => true
  profileId := "profile-1"

/-- The OCR page text used by the concrete environments below. -/
def pageW : JStr := "abcdefghij".toList

/-- The 120-character text extracted by OCR in the concrete environments
below: ten pages of ten characters, each followed by a blank line. -/
def ocrTextW : JStr := ((List.range 10).map fun _ => pageW ++ ['\n', '\n']).flatten

/-- Environment whose OCR extraction yields `ocrTextW` and whose
language-service call fails on every chunk. -/
def envChunkFault : Env where
  download := .ok ()
  native := .error ()
  ocrSetup := .ok ()
  ocrPage := fun _ => some pageW
  llm := fun _ => .error ()
  saveOk := fun _ => true
  profileId := "profile-1"

/-- A record returned by the service in the concrete persistence scenario. -/
def recW : CreditRecord :=
  ⟨"Zenith Bank", "CREDIT_CARD", some 1200, none, none, none, ["Experian"], false, none⟩

/-- Environment whose single chunk yields the single record `recW`, whose
persistence always succeeds. -/
def envSave : Env where
  download := .ok ()
  native := .error ()
  ocrSetup := .ok ()
  ocrPage := fun _ => some pageW
  llm := fun _ => .ok ⟨some (JVal.arr [recW]), none⟩
  saveOk := fun _ => true
  profileId := "profile-1"

example : chunkText "ab\ncd".toList 5 = [['a', 'b', '\n', 'c', 'd', '\n']] := by decide

example : chunkText "ab\ncd\nef".toList 5 =
    [['a', 'b', '\n', 'c', 'd', '\n'], ['e', 'f', '\n']] := by decide

example : chunkText [] 5 = [['\n']] := by decide

/-! ### Chunker lemmas -/

theorem chunkGo_flatten (maxChunkSize : Nat) (lines : List JStr) (cur : JStr) :
    (chunkGo maxChunkSize lines cur).flatten
      = cur ++ (lines.map (· ++ ['\n'])).flatten := by
  induction lines generalizing cur with
  | nil => by_cases h : cur = [] <;> simp [chunkGo, h]
  | cons line rest ih =>
    rw [chunkGo]
    split
    · simp [ih]
    · simp [ih]

theorem map_append_newline_flatten (c : Char) :
    ∀ ls : List JStr, ls ≠ [] →
      (ls.map (· ++ [c])).flatten = [c].intercalate ls ++ [c] := by
  intro ls
  induction ls with
  | nil => intro h; exact absurd rfl h
  | cons x tl ih =>
    intro _
    cases tl with
    | nil => simp [List.intercalate]
    | cons y tl2 =>
      have h2 := ih (by simp)
      simp only [List.map_cons, List.flatten_cons, List.intercalate,
        List.intersperse_cons_cons] at h2 ⊢
      simp [h2]

theorem splitOn_ne_nil (c : Char) (t : JStr) : t.splitOn c ≠ [] :=
  List.splitOnP_ne_nil _ t

/-- C4: concatenating all chunks, in output order, reconstructs the original
text up to line-ending normalization — precisely, the concatenation is the
original text with every line (the last one included) terminated by a
newline, i.e. the original text followed by one extra newline character. -/
theorem chunkText_concat (text : JStr) (maxChunkSize : Nat) :
    (chunkText text maxChunkSize).flatten = text ++ ['\n'] := by
  rw [chunkText, chunkGo_flatten, List.nil_append,
    map_append_newline_flatten '\n' _ (splitOn_ne_nil '\n' text),
    List.intercalate_splitOn]

theorem chunkGo_size (maxChunkSize : Nat) (C : JStr → Prop) :
    ∀ (lines : List JStr) (cur : JStr),
      (cur.length ≤ maxChunkSize + 1 ∨
        ∃ l, cur = l ++ ['\n'] ∧ maxChunkSize < l.length ∧ C l) →
      (∀ l ∈ lines, C l) →
      ∀ c ∈ chunkGo maxChunkSize lines cur,
        c.length ≤ maxChunkSize + 1 ∨
          ∃ l, c = l ++ ['\n'] ∧ maxChunkSize < l.length ∧ C l := by
  intro lines
  induction lines with
  | nil =>
    intro cur hcur _ c hc
    rw [chunkGo] at hc
    split at hc
    · simp at hc
    · simp at hc; subst hc; exact hcur
  | cons line rest ih =>
    intro cur hcur hC c hc
    rw [chunkGo] at hc
    split at hc
    case isTrue h =>
      rcases List.mem_cons.mp hc with rfl | hc2
      · exact hcur
      · refine ih (line ++ ['\n']) ?_ (fun l hl => hC l (List.mem_cons_of_mem _ hl)) c hc2
        by_cases hlen : maxChunkSize < line.length
        · exact Or.inr ⟨line, rfl, hlen, hC line (List.mem_cons_self _ _)⟩
        · left; simp; omega
    case isFalse h =>
      refine ih (cur ++ line ++ ['\n']) ?_ (fun l hl => hC l (List.mem_cons_of_mem _ hl)) c hc
      by_cases hlen : (cur ++ line).length ≤ maxChunkSize
      · left; simp only [List.length_append, List.length_cons, List.length_nil] at hlen ⊢
        omega
      · have hcur0 : cur = [] := by
          by_contra hne
          exact h ⟨Nat.not_le.mp hlen, hne⟩
        subst hcur0
        right
        refine ⟨line, by simp, ?_, hC line (List.mem_cons_self _ _)⟩
        simpa using Nat.not_le.mp hlen

/-- C3 (amended): every chunk is at most one character longer than the size
bound (the size check runs before the chunk's trailing newline is appended),
except a chunk consisting of a single input line that alone exceeds the
bound. -/
theorem chunkText_size (text : JStr) (maxChunkSize : Nat) :
    ∀ c ∈ chunkText text maxChunkSize,
      c.length ≤ maxChunkSize + 1 ∨
        ∃ l ∈ text.splitOn '\n', c = l ++ ['\n'] ∧ maxChunkSize < l.length := by
  intro c hc
  have h := chunkGo_size maxChunkSize (· ∈ text.splitOn '\n') (text.splitOn '\n') []
    (Or.inl (by simp)) (fun l hl => hl) c hc
  rcases h with h | ⟨l, h1, h2, h3⟩
  · exact Or.inl h
  · exact Or.inr ⟨l, h3, h1, h2⟩

/-- Witness for `chunkText_size` at the input "ab\ncd" with bound 5 and its
single produced chunk. -/
theorem chunkText_size_witness :
    (['a', 'b', '\n', 'c', 'd', '\n'] : JStr).length ≤ 5 + 1 ∨
      ∃ l ∈ ("ab\ncd".toList : JStr).splitOn '\n',
        (['a', 'b', '\n', 'c', 'd', '\n'] : JStr) = l ++ ['\n'] ∧ 5 < l.length :=
  chunkText_size ("ab\ncd".toList) 5 _ (by decide)

/-- C3 counterexample: with bound 5, the text "ab\ncd" yields the single
chunk "ab\ncd\n" of length 6 > 5, although every input line is within the
bound — so the claim's only allowed exception (a single line that alone
exceeds the bound) does not apply, yet the bound is exceeded. -/
theorem chunkText_bound_violated :
    chunkText "ab\ncd".toList 5 = [['a', 'b', '\n', 'c', 'd', '\n']] ∧
      5 < (['a', 'b', '\n', 'c', 'd', '\n'] : JStr).length ∧
      ∀ l ∈ ("ab\ncd".toList : JStr).splitOn '\n', l.length ≤ 5 := by decide

/-! ### Deduplication lemmas -/

theorem dedupGo_sublist : ∀ (l : List CreditRecord) (seen : List String),
    (dedupGo l seen).Sublist l := by
  intro l
  induction l with
  | nil => intro seen; simp [dedupGo]
  | cons item rest ih =>
    intro seen
    rw [dedupGo]
    split
    · exact (ih seen).cons _
    · exact (ih _).cons₂ _

theorem dedupGo_key_not_seen : ∀ (l : List CreditRecord) (seen : List String)
    (r : CreditRecord), r ∈ dedupGo l seen → dedupKey r ∉ seen := by
  intro l
  induction l with
  | nil => intro seen r hr; simp [dedupGo] at hr
  | cons item rest ih =>
    intro seen r hr
    rw [dedupGo] at hr
    split at hr
    · exact ih seen r hr
    · rcases List.mem_cons.mp hr with rfl | hr2
      · assumption
      · intro hmem
        exact ih _ r hr2 (List.mem_cons_of_mem _ hmem)

theorem dedupGo_pairwise : ∀ (l : List CreditRecord) (seen : List String),
    (dedupGo l seen).Pairwise fun a b => dedupKey a ≠ dedupKey b := by
  intro l
  induction l with
  | nil => intro seen; simp [dedupGo]
  | cons item rest ih =>
    intro seen
    rw [dedupGo]
    split
    · exact ih seen
    · refine List.Pairwise.cons (fun b hb => ?_) (ih _)
      have hb2 := dedupGo_key_not_seen _ _ b hb
      intro he
      exact hb2 (he ▸ List.mem_cons_self _ _)

theorem dedupGo_eq_self : ∀ (l : List CreditRecord) (seen : List String),
    (l.Pairwise fun a b => dedupKey a ≠ dedupKey b) →
    (∀ r ∈ l, dedupKey r ∉ seen) → dedupGo l seen = l := by
  intro l
  induction l with
  | nil => intro seen _ _; rfl
  | cons item rest ih =>
    intro seen hpw hns
    rw [dedupGo]
    rw [if_neg (hns item (List.mem_cons_self _ _))]
    congr 1
    refine ih _ (List.Pairwise.of_cons hpw) fun r hr hmem => ?_
    rcases List.mem_cons.mp hmem with he | hseen
    · exact (List.rel_of_pairwise_cons hpw hr) he.symm
    · exact hns r (List.mem_cons_of_mem _ hr) hseen

/-- C5: deduplication is idempotent (applying it to its own output returns
that output unchanged), and the kept records form a sublist of the input, so
they appear in the same relative order as in the input. -/
theorem dedup_idempotent_ordered (l : List CreditRecord) :
    dedup (dedup l) = dedup l ∧ (dedup l).Sublist l :=
  ⟨dedupGo_eq_self _ _ (dedupGo_pairwise l []) (fun _ _ => List.not_mem_nil _),
   dedupGo_sublist l []⟩

theorem dedupGo_first_occurrence :
    ∀ (l : List CreditRecord) (seen : List String) (r : CreditRecord),
      r ∈ dedupGo l seen →
      dedupKey r ∉ seen ∧
        ∃ pre post, l = pre ++ r :: post ∧ ∀ x ∈ pre, dedupKey x ≠ dedupKey r := by
  intro l
  induction l with
  | nil => intro seen r hr; simp [dedupGo] at hr
  | cons item rest ih =>
    intro seen r hr
    rw [dedupGo] at hr
    split at hr
    case isTrue h =>
      obtain ⟨hns, pre, post, heq, hpre⟩ := ih seen r hr
      refine ⟨hns, item :: pre, post, by rw [heq]; rfl, fun x hx => ?_⟩
      rcases List.mem_cons.mp hx with rfl | hx2
      · exact fun he => hns (he ▸ h)
      · exact hpre x hx2
    case isFalse h =>
      rcases List.mem_cons.mp hr with rfl | hr2
      · exact ⟨h, [], rest, rfl, by simp⟩
      · obtain ⟨hns, pre, post, heq, hpre⟩ := ih _ r hr2
        simp only [List.mem_cons, not_or] at hns
        refine ⟨hns.2, item :: pre, post, by rw [heq]; rfl, fun x hx => ?_⟩
        rcases List.mem_cons.mp hx with rfl | hx2
        · exact fun he => hns.1 he.symm
        · exact hpre x hx2

theorem dedupGo_covers :
    ∀ (l : List CreditRecord) (seen : List String) (x : CreditRecord),
      x ∈ l → dedupKey x ∉ seen →
      ∃ r ∈ dedupGo l seen, dedupKey r = dedupKey x := by
  intro l
  induction l with
  | nil => intro seen x hx; simp at hx
  | cons item rest ih =>
    intro seen x hx hns
    rw [dedupGo]
    split
    case isTrue h =>
      rcases List.mem_cons.mp hx with rfl | hx2
      · exact absurd h hns
      · exact ih seen x hx2 hns
    case isFalse h =>
      by_cases hk : dedupKey x = dedupKey item
      · exact ⟨item, List.mem_cons_self _ _, hk.symm⟩
      · rcases List.mem_cons.mp hx with rfl | hx2
        · exact absurd rfl hk
        · obtain ⟨r, hrmem, hrk⟩ := ih _ x hx2 (by
            intro hmem
            rcases List.mem_cons.mp hmem with he | hs
            · exact hk he
            · exact hns hs)
          exact ⟨r, List.mem_cons_of_mem _ hrmem, hrk⟩

/-- C9: the dedup key depends only on creditor, type, and amount-defaulted-to
zero; every kept record is the first input record bearing its key (everything
before it has a different key); every input record's key is represented in
the output; and no two kept records share a key — so all later records
sharing a key, whatever their other fields, are discarded. -/
theorem dedup_first_seen (l : List CreditRecord) :
    (∀ a b : CreditRecord, a.creditor = b.creditor → a.type = b.type →
        a.amount.getD 0 = b.amount.getD 0 → dedupKey a = dedupKey b) ∧
      (∀ r ∈ dedup l, ∃ pre post, l = pre ++ r :: post ∧
          ∀ x ∈ pre, dedupKey x ≠ dedupKey r) ∧
        (∀ x ∈ l, ∃ r ∈ dedup l, dedupKey r = dedupKey x) ∧
          (dedup l).Pairwise fun a b => dedupKey a ≠ dedupKey b :=
  ⟨fun a b h1 h2 h3 => by simp [dedupKey, h1, h2, h3],
   fun r hr => (dedupGo_first_occurrence l [] r hr).2,
   fun x hx => dedupGo_covers l [] x hx (List.not_mem_nil _),
   dedupGo_pairwise l []⟩

/-- Witness for `dedup_first_seen`: applied to the two-record list of the
spec's example, the kept record `recAcme` is the first occurrence of its
key. -/
theorem dedup_first_seen_witness :
    ∃ pre post, [recAcme, recAcmeDup] = pre ++ recAcme :: post ∧
      ∀ x ∈ pre, dedupKey x ≠ dedupKey recAcme :=
  (dedup_first_seen [recAcme, recAcmeDup]).2.1 recAcme (by decide)

/-! ### Response-parsing theorems -/

/-- C7: a parsed response whose `accounts` key holds an array is accepted
identically to one whose `items` key holds the same array — the same records
are appended — and a response with neither key contributes zero records for
its chunk, without raising an error (the selection is a total function). -/
theorem chunkItems_tolerant (xs : List CreditRecord) :
    chunkItems (.ok ⟨some (JVal.arr xs), none⟩) = xs ∧
      chunkItems (.ok ⟨none, some (JVal.arr xs)⟩) = xs ∧
        chunkItems (.ok ⟨none, none⟩) = [] :=
  ⟨rfl, rfl, rfl⟩

/-! ### Text-extraction theorems -/

/-- C2 counterexample: native extraction succeeds with exactly 100 characters
(no surrounding whitespace), yet the extractor returns the OCR outcome, not
the native text — the code requires text strictly longer than 100 characters
after trimming before it skips OCR. -/
theorem extractPdfText_hundred_chars :
    extractPdfText (.ok (List.replicate 100 'a')) (.ok ['x']) = .ok ['x'] ∧
      (List.replicate 100 'a' : JStr).length = 100 := by decide

/-- C2 (amended): the native text is returned (and the OCR outcome ignored)
exactly when it is truthy and strictly longer than 100 characters after
trimming whitespace; otherwise — including text of exactly 100 characters —
the OCR outcome is used; when native extraction throws, the OCR outcome is
used. -/
theorem extractPdfText_fallback (t : JStr) (e : Unit) (ocr : Except Unit JStr) :
    ((t ≠ [] ∧ 100 < (jsTrim t).length) → extractPdfText (.ok t) ocr = .ok t) ∧
      (¬(t ≠ [] ∧ 100 < (jsTrim t).length) → extractPdfText (.ok t) ocr = ocr) ∧
        extractPdfText (.error e) ocr = ocr := by
  refine ⟨fun h => ?_, fun h => ?_, rfl⟩
  · show (if t ≠ [] ∧ 100 < (jsTrim t).length then Except.ok t else ocr) = Except.ok t
    exact if_pos h
  · show (if t ≠ [] ∧ 100 < (jsTrim t).length then Except.ok t else ocr) = ocr
    exact if_neg h

/-- Witness for `extractPdfText_fallback`: a 101-character native text is
returned as-is, and a 100-character native text falls back to the OCR
outcome. -/
theorem extractPdfText_fallback_witness :
    extractPdfText (.ok (List.replicate 101 'a')) (.ok ['x'])
        = .ok (List.replicate 101 'a') ∧
      extractPdfText (.ok (List.replicate 100 'a')) (.error ()) = .error () :=
  ⟨(extractPdfText_fallback (List.replicate 101 'a') () (.ok ['x'])).1 (by decide),
   (extractPdfText_fallback (List.replicate 100 'a') () (.error ())).2.1 (by decide)⟩

/-- C8 counterexample: when native extraction throws and every OCR page is
skipped (each per-page failure is caught inside the loop), the extractor
returns successfully with the empty string rather than failing. -/
theorem extractPdfText_empty_success :
    extractPdfText (.error ()) (extractTextWithOCR (.ok ()) fun _ => none)
      = .ok ([] : JStr) := by decide

/-! ### Orchestrator theorems -/

/-- C1: every `/process` invocation writes `processing` followed by exactly
one terminal status — the ordered status-write log is either
`[processing, completed]` or `[processing, failed]`, never both terminal
states and never ending at `processing`. -/
theorem runProcess_terminal (env : Env) :
    (runProcess env).log = [.processing, .completed] ∨
      (runProcess env).log = [.processing, .failed] := by
  rw [runProcess]
  split
  · exact Or.inr rfl
  · split
    · exact Or.inr rfl
    · split
      · exact Or.inr rfl
      · exact Or.inl rfl

theorem flatMap_filter_of_eq_nil {α β : Type} [DecidableEq α] (f : α → List β)
    (k : α) (hf : f k = []) :
    ∀ l : List α, l.flatMap f = (l.filter fun i => i ≠ k).flatMap f := by
  intro l
  induction l with
  | nil => rfl
  | cons x tl ih =>
    by_cases hx : x = k
    · subst hx; simp [List.filter_cons, hf, ih]
    · simp [List.filter_cons, hx, ih]

/-- C8 (amended): the extractor either fails or returns the extracted text;
on the native path the text is non-empty (truthy and over 100 characters
after trimming), but on the OCR path it may be empty — the pipeline
compensates at the orchestrator, which fails the job whenever the extracted
text has fewer than 100 characters, so a successful empty extraction never
completes a job. -/
theorem extract_empty_guarded (env : Env) (t u : JStr) :
    ((u ≠ [] ∧ 100 < (jsTrim u).length) →
        extractPdfText (.ok u) (extractTextWithOCR env.ocrSetup env.ocrPage)
            = .ok u ∧ u ≠ []) ∧
      (extractOf env = .ok t → t.length < 100 →
        (runProcess env).log = [.processing, .failed]) := by
  constructor
  · intro h
    refine ⟨?_, h.1⟩
    show (if u ≠ [] ∧ 100 < (jsTrim u).length
        then Except.ok u else extractTextWithOCR env.ocrSetup env.ocrPage) = Except.ok u
    exact if_pos h
  · intro hex hlen
    rcases hdl : env.download with m | u
    · simp only [runProcess, hdl]
    · simp only [runProcess, hdl, hex]
      rw [if_pos (Or.inr hlen)]

/-- Witness for `extract_empty_guarded`: a 101-character native text is
accepted non-empty, and the empty-extraction environment ends with a failed
job. -/
theorem extract_empty_guarded_witness :
    (extractPdfText (.ok (List.replicate 101 'a'))
          (extractTextWithOCR envOcrEmpty.ocrSetup envOcrEmpty.ocrPage)
        = .ok (List.replicate 101 'a') ∧ (List.replicate 101 'a' : JStr) ≠ []) ∧
      (runProcess envOcrEmpty).log = [.processing, .failed] :=
  ⟨(extract_empty_guarded envOcrEmpty [] (List.replicate 101 'a')).1 (by decide),
   (extract_empty_guarded envOcrEmpty [] (List.replicate 101 'a')).2 rfl (by decide)⟩

/-- C6: a failing language-service call (or parse) for one chunk never fails
the job: whenever download succeeds and extraction yields sufficient text,
the job ends `completed` with a successful HTTP response, and its items are
exactly the deduplicated records extracted from the chunks other than the
failing one. -/
theorem runProcess_chunk_fault_tolerant (env : Env) (t : JStr) (k : Nat) (e : Unit)
    (hdl : env.download = .ok ())
    (hex : extractOf env = .ok t)
    (hlen : ¬(t = [] ∨ t.length < 100))
    (hllm : env.llm k = .error e) :
    (runProcess env).log = [.processing, .completed] ∧
      (runProcess env).httpOk = true ∧
        (runProcess env).items =
          dedup (((List.range (chunkText t).length).filter fun i => i ≠ k).flatMap
            fun i => chunkItems (env.llm i)) := by
  have hrun : runProcess env =
      ⟨[.processing, .completed], processChunksWithOpenAI env.llm (chunkText t),
        savedRows env.profileId (processChunksWithOpenAI env.llm (chunkText t))
          env.saveOk, true⟩ := by
    simp only [runProcess, hdl, hex, if_neg hlen]
  rw [hrun]
  refine ⟨rfl, rfl, ?_⟩
  show processChunksWithOpenAI env.llm (chunkText t) = _
  rw [processChunksWithOpenAI]
  rw [flatMap_filter_of_eq_nil (fun i => chunkItems (env.llm i)) k
    (by show chunkItems (env.llm k) = []; rw [hllm]; rfl)]

/-- Witness for `runProcess_chunk_fault_tolerant`: with every chunk's service
call failing, the job still completes. -/
theorem runProcess_chunk_fault_tolerant_witness :
    (runProcess envChunkFault).log = [.processing, .completed] ∧
      (runProcess envChunkFault).httpOk = true ∧
        (runProcess envChunkFault).items =
          dedup (((List.range (chunkText ocrTextW).length).filter fun i => i ≠ 0).flatMap
            fun i => chunkItems (envChunkFault.llm i)) :=
  runProcess_chunk_fault_tolerant envChunkFault ocrTextW 0 () rfl rfl (by decide) rfl

/-- C10: every row the pipeline persists to `credit_items` carries the
constant status `TO_SEND` and the constant confidence `0.8`, for every
environment — in particular independent of the language-service responses. -/
theorem savedRow_constants (env : Env) (row : SavedRow) :
    row ∈ (runProcess env).saved →
      row.status = "TO_SEND" ∧ row.confidence = 0.8 := by
  intro hrow
  rw [runProcess] at hrow
  split at hrow
  · simp at hrow
  · split at hrow
    · simp at hrow
    · split at hrow
      · simp at hrow
      · obtain ⟨pr, _, heq⟩ := List.mem_map.mp hrow
        exact heq ▸ ⟨rfl, rfl⟩

set_option maxRecDepth 100000 in
/-- Witness for `savedRow_constants`: the row persisted for `recW` carries
the two constants. -/
theorem savedRow_constants_witness :
    (toRow "profile-1" recW).status = "TO_SEND" ∧
      (toRow "profile-1" recW).confidence = 0.8 :=
  savedRow_constants envSave (toRow "profile-1" recW)
    (show toRow "profile-1" recW ∈ (runProcess envSave).saved from
      List.mem_singleton.mpr rfl)

end CreditWorker
